import Mathlib

/-!
Verification development for the Argue command-line argument parsing library
(argue.hpp). The C++ classes are embedded shallowly: strings become lists of
characters, every mutable object (text builder, option, positional argument,
parser node) becomes an immutable value that the embedded functions thread
through, and the single shared error slot of a parser tree becomes an
explicit value of type Option threaded in and out of every parsing function.
Each definition mirrors one method of the source; the fuel arguments bound
loops whose C++ counterparts terminate by consuming input, and every use
supplies enough fuel for the bound never to be hit.
-/

namespace Argue

/-- Strings of the embedding: C++ std::string and std::string_view values
are modelled as lists of characters. -/
abbrev Str := List Char

/-- Conversion from a Lean string literal to the embedded string type. -/
def chars (s : String) : Str := s.data

/-- Mirrors Argue::SPACE_CHARS, the characters treated as spaces
(space, form feed, line feed, carriage return, horizontal tab, vertical tab). -/
def SPACE_CHARS : Str := chars " \x0c\n\r\t\x0b"

/-- Mirrors Argue::IsSpace: membership in SPACE_CHARS. -/
def isSpaceChar (c : Char) : Bool := SPACE_CHARS.contains c

/-- Mirrors std::string_view::starts_with: the second list is a leading
segment of the first. -/
def startsWith : Str → Str → Bool
  | _, [] => true
  | [], _ :: _ => false
  | a :: as, b :: bs => a == b && startsWith as bs

/-- Pops trailing space characters, as the loops
while (!s.empty() and IsSpace(s.back())) s.pop_back() do in the source. -/
def trimTrailing (l : Str) : Str := (l.reverse.dropWhile isSpaceChar).reverse

/-- True when the last character of the list exists and is a space character;
mirrors IsSpace(line.back()) guarded by non-emptiness. -/
def lastIsSpace (l : Str) : Bool :=
  match l.getLast? with
  | some c => isSpaceChar c
  | none => false

/-- True when the first character of the list exists and is a space character;
mirrors (!text.empty() and IsSpace(text[0])). -/
def headIsSpace (l : Str) : Bool :=
  match l.head? with
  | some c => isSpaceChar c
  | none => false

/-- State of Argue::TextBuilder: the accumulated text, the indentation level,
the pending current line, the length of the indentation at the start of the
current line, and the three configuration fields of the constructor. -/
structure TextBuilder where
  text : Str
  indentationLevel : Nat
  currentLine : Str
  currentLineIndentLength : Nat
  indent : Str
  indentOnWrap : Bool
  maxParagraphWidth : Nat
deriving DecidableEq

/-- TextBuilder in its initial state with the given constructor arguments. -/
def mkTextBuilder (ind : Str) (onWrap : Bool) (width : Nat) : TextBuilder :=
  ⟨[], 0, [], 0, ind, onWrap, width⟩

/-- TextBuilder with the default constructor arguments
(indent two spaces, indentOnWrap true, maxParagraphWidth 80). -/
def tbInit : TextBuilder := mkTextBuilder (chars "  ") true 80

/-- Mirrors Argue::TextBuilder::NewLine: if the current line is non-empty,
append it (with trailing spaces trimmed) to the accumulated text, separated
by a line break when the accumulated text is non-empty, and clear the
current line. -/
def TextBuilder.newLine (b : TextBuilder) : TextBuilder :=
  if 0 < b.currentLine.length then
    { b with
      text := (if b.text.isEmpty then [] else b.text ++ ['\n']) ++ trimTrailing b.currentLine,
      currentLineIndentLength := 0,
      currentLine := [] }
  else b

/-- Mirrors Argue::TextBuilder::Spacer: NewLine, then append one line break
unless the accumulated text already ends with one. -/
def TextBuilder.spacer (b : TextBuilder) : TextBuilder :=
  let b1 := b.newLine
  if b1.text.getLast? = some '\n' then b1 else { b1 with text := b1.text ++ ['\n'] }

/-- Mirrors Argue::TextBuilder::Indent. -/
def TextBuilder.doIndent (b : TextBuilder) : TextBuilder :=
  { b with indentationLevel := b.indentationLevel + 1 }

/-- Mirrors Argue::TextBuilder::DeIndent (saturating at zero). -/
def TextBuilder.deIndent (b : TextBuilder) : TextBuilder :=
  if 0 < b.indentationLevel then { b with indentationLevel := b.indentationLevel - 1 } else b

/-- Mirrors Argue::TextBuilder::Build. The result concatenates the
accumulated text and the pending current line (with a separating line break
when the accumulated text is non-empty), trims trailing space characters and
appends exactly one line break. The builder state is returned as the second
component: the source method leaves every field unchanged (it does not reset
the instance, although the interface documentation of ITextBuilder::Build
says that it does). -/
def TextBuilder.build (b : TextBuilder) : Str × TextBuilder :=
  let result := if b.text.isEmpty then b.currentLine else b.text ++ '\n' :: b.currentLine
  (trimTrailing result ++ ['\n'], b)

/-- The indentation string repeated the given number of times, as the loop in
Argue::TextBuilder::PutLineIndent emits it. -/
def repIndent : Nat → Str → Str
  | 0, _ => []
  | n + 1, ind => ind ++ repIndent n ind

/-- Mirrors Argue::TextBuilder::PutLineIndent: when the current line is empty,
record the indentation length and emit the indentation (one extra level when
the line starts because of a wrap and indentOnWrap is set). -/
def TextBuilder.putLineIndent (b : TextBuilder) (hasWrapped : Bool) : TextBuilder :=
  if b.currentLine.isEmpty then
    let baseLen := b.indentationLevel * b.indent.length
    if hasWrapped && b.indentOnWrap then
      { b with
        currentLineIndentLength := baseLen + b.indent.length,
        currentLine := b.indent ++ repIndent b.indentationLevel b.indent }
    else
      { b with
        currentLineIndentLength := baseLen,
        currentLine := repIndent b.indentationLevel b.indent }
  else b

/-- Index of the first space character, mirroring
text.find_first_of(SPACE_CHARS). -/
def findSpaceIdx : Str → Option Nat
  | [] => none
  | c :: cs => if isSpaceChar c then some 0 else (findSpaceIdx cs).map (fun i => i + 1)

/-- Loop body of Argue::TextBuilder::PutLine. Every iteration that does not
leave the loop removes at least one character from text, so fuel
text.length + 1 always suffices. -/
def TextBuilder.putLineGo (fuel : Nat) (b : TextBuilder) (text : Str) : TextBuilder :=
  match fuel with
  | 0 => b
  | fuel + 1 =>
    let currentLineWidth := b.currentLine.length - b.currentLineIndentLength
    let hasWrapped := !b.currentLine.isEmpty &&
        decide (b.maxParagraphWidth ≤ currentLineWidth) &&
        (lastIsSpace b.currentLine || headIsSpace text)
    let b1 := if hasWrapped then b.newLine else b
    let b2 := b1.putLineIndent hasWrapped
    match findSpaceIdx text with
    | none => { b2 with currentLine := b2.currentLine ++ text }
    | some nextWordIdx =>
      let b3 :=
        if 0 < nextWordIdx then
          { b2 with currentLine := b2.currentLine ++ text.take nextWordIdx ++ [' '] }
        else if !hasWrapped then
          { b2 with currentLine := b2.currentLine ++ [' '] }
        else b2
      TextBuilder.putLineGo fuel b3 (text.drop (nextWordIdx + 1))

/-- Mirrors Argue::TextBuilder::PutLine (text without embedded line breaks). -/
def TextBuilder.putLine (b : TextBuilder) (text : Str) : TextBuilder :=
  b.putLineGo (text.length + 1) text

/-- Index of the first line break, mirroring text.find of the line break
character. -/
def findNL : Str → Option Nat
  | [] => none
  | c :: cs => if c = '\n' then some 0 else (findNL cs).map (fun i => i + 1)

/-- Loop body of Argue::TextBuilder::PutText: split on embedded line breaks,
PutLine each segment, NewLine between segments. Each iteration removes at
least one character, so fuel text.length + 1 always suffices. -/
def TextBuilder.putTextGo (fuel : Nat) (b : TextBuilder) (text : Str) : TextBuilder :=
  match fuel with
  | 0 => b
  | fuel + 1 =>
    match findNL text with
    | none => b.putLine text
    | some i => TextBuilder.putTextGo fuel ((b.putLine (text.take i)).newLine) (text.drop (i + 1))

/-- Mirrors Argue::TextBuilder::PutText. -/
def TextBuilder.putText (b : TextBuilder) (text : Str) : TextBuilder :=
  b.putTextGo (text.length + 1) text

/-- One call of the public TextBuilder interface, for quantifying over call
sequences. -/
inductive TBOp where
  | putTextOp (s : Str)
  | newLineOp
  | spacerOp
  | indentOp
  | deIndentOp
deriving DecidableEq

/-- Run one interface call on a builder. -/
def runOp (b : TextBuilder) : TBOp → TextBuilder
  | .putTextOp s => b.putText s
  | .newLineOp => b.newLine
  | .spacerOp => b.spacer
  | .indentOp => b.doIndent
  | .deIndentOp => b.deIndent

/-- Run a sequence of interface calls on a builder, first call first. -/
def runOps (b : TextBuilder) (ops : List TBOp) : TextBuilder := ops.foldl runOp b

/-- True when the list is empty or its last character is not a space
character (used to state the trailing-whitespace invariant of Build). -/
def lastNotSpace (l : Str) : Bool :=
  match l.getLast? with
  | none => true
  | some c => !isSpaceChar c

/-- Smallest and largest values of the C++ type int64_t. -/
def INT64_MIN : Int := -(2 ^ 63)

/-- Largest value of the C++ type int64_t. -/
def INT64_MAX : Int := 2 ^ 63 - 1

/-- Value of a list of decimal digit characters, most significant first. -/
def natOfDigits (ds : Str) : Nat :=
  ds.foldl (fun a c => a * 10 + (c.toNat - 48)) 0

/-- Outcome of the integer conversion: how many characters were consumed,
and the value that the conversion wrote into its out-parameter (none when it
wrote nothing, so the C++ local variable stays indeterminate). -/
structure FromChars where
  consumed : Nat
  stored : Option Int
deriving DecidableEq

/-- Modelled from the spec: the integer-parsing primitive used to convert
text to numbers (std::from_chars with base 10) is declared an external
collaborator by the specification, so it is embedded from its documented
semantics: it matches an optional minus sign followed by a maximal non-empty
run of decimal digits; when no digit follows, nothing is consumed and
nothing is stored; when the matched numeral lies outside the int64_t range,
the whole numeral is consumed but nothing is stored (result_out_of_range is
reported through an error code that the Argue source never inspects). -/
def fromChars (l : Str) : FromChars :=
  if l.head? = some '-' then
    let ds := l.tail.takeWhile Char.isDigit
    if ds.isEmpty then { consumed := 0, stored := none }
    else
      let v : Int := -(natOfDigits ds : Int)
      { consumed := 1 + ds.length,
        stored := if INT64_MIN ≤ v ∧ v ≤ INT64_MAX then some v else none }
  else
    let ds := l.takeWhile Char.isDigit
    if ds.isEmpty then { consumed := 0, stored := none }
    else
      let v : Int := (natOfDigits ds : Int)
      { consumed := ds.length,
        stored := if INT64_MIN ≤ v ∧ v ≤ INT64_MAX then some v else none }

/-- Variant payload of an option: the value state and defaults of
Argue::IntOption, Argue::StrOption, Argue::ChoiceOption,
Argue::CollectionOption and Argue::FlagOption. For the integer option the
stored value is an Option so that the indeterminate value produced by an
ignored out-of-range conversion is represented honestly; the C++ member
initializer corresponds to some 0. -/
inductive OptData where
  | intOpt (hasDefault : Bool) (dflt : Int) (value : Option Int)
  | strOpt (hasDefault : Bool) (dflt : Str) (value : Str)
  | choiceOpt (choices : List Str) (hasDefault : Bool) (defaultIdx : Nat) (valueIdx : Nat)
  | collOpt (acceptEmpty : Bool) (values : List Str)
  | flagOpt (dflt : Bool) (value : Bool)
deriving DecidableEq

/-- An option: the fields of Argue::IOption shared by every variant, plus
the variant payload. -/
structure ArgOption where
  name : Str
  shortName : Str
  metaVar : Str
  wasParsed : Bool
  data : OptData
deriving DecidableEq

/-- Mirrors Argue::IOption::HasMetaVar. -/
def ArgOption.hasMetaVar (o : ArgOption) : Bool := !o.metaVar.isEmpty

/-- Mirrors Argue::IOption::HasShortName. -/
def ArgOption.hasShortName (o : ArgOption) : Bool := !o.shortName.isEmpty

/-- Mirrors the HasDefaultValue overrides: Flag and Collection always have a
default, Integer, String and Choice only when configured with one. -/
def OptData.hasDefaultValue : OptData → Bool
  | .intOpt hd _ _ => hd
  | .strOpt hd _ _ => hd
  | .choiceOpt _ hd _ _ => hd
  | .collOpt _ _ => true
  | .flagOpt _ _ => true

/-- Mirrors Argue::IOption::HasValue: parsed or has a default. -/
def ArgOption.hasValue (o : ArgOption) : Bool := o.wasParsed || o.data.hasDefaultValue

/-- Mirrors Argue::ChoiceOption::GetChoiceString: opening brace, each
candidate followed by a comma, and the final comma (when present) replaced
by the closing brace. -/
def getChoiceString (choices : List Str) : Str :=
  let r := '\x7b' :: choices.foldl (fun acc c => acc ++ c ++ [',']) []
  if r.getLast? = some ',' then r.dropLast ++ ['\x7d'] else r ++ ['\x7d']

/-- Index of the first candidate equal to the value, mirroring the scan loop
of Argue::ChoiceOption::ParseValue. -/
def findChoice (v : Str) : List Str → Nat → Option Nat
  | [], _ => none
  | c :: cs, i => if c = v then some i else findChoice v cs (i + 1)

/-- Mirrors the ParseValue overrides of the option variants. Arguments: the
long option marker of the owning parser (used only in error messages), the
option name, the variant payload, the value text, and the incoming shared
error slot. Returns the success flag, the new payload, and the outgoing
error slot (SetError overwrites the slot and the method returns false). -/
def OptData.parseValue (pre nm : Str) (d : OptData) (val : Str) (err : Option Str) :
    Bool × OptData × Option Str :=
  match d with
  | .intOpt hd df v =>
    let r := fromChars val
    if r.consumed ≠ val.length then
      (false, .intOpt hd df v,
        some (chars "Expected integer for '" ++ pre ++ nm ++ chars "', got '" ++ val ++ chars "'."))
    else
      (true, .intOpt hd df r.stored, err)
  | .strOpt hd df _ => (true, .strOpt hd df val, err)
  | .choiceOpt cs hd di vi =>
    match findChoice val cs 0 with
    | some i => (true, .choiceOpt cs hd di i, err)
    | none =>
      (false, .choiceOpt cs hd di vi,
        some (chars "Expected one of " ++ getChoiceString cs ++ chars " for '" ++ pre ++ nm ++
          chars "', got '" ++ val ++ chars "'."))
  | .collOpt ae vs =>
    if !ae && val.isEmpty then
      (false, .collOpt ae vs,
        some (chars "Empty values are not allowed for '" ++ pre ++ nm ++ chars "'."))
    else
      (true, .collOpt ae (vs ++ [val]), err)
  | .flagOpt df v =>
    (false, .flagOpt df v,
      some (chars "Value parsing was not implemented for '" ++ nm ++ chars "'."))

/-- Mirrors Argue::IOption::ConsumeName: the short form requires a non-empty
short name at the head of the fragment, the long form requires the long name
at the head; on success the name is removed from the fragment. -/
def consumeName (o : ArgOption) (arg : Str) (isShort : Bool) : Option Str :=
  if isShort then
    if o.shortName.isEmpty || !startsWith arg o.shortName then none
    else some (arg.drop o.shortName.length)
  else
    if !startsWith arg o.name then none
    else some (arg.drop o.name.length)

/-- Mirrors Argue::IOption::ParseArg (the default implementation used by the
Integer, String, Choice and Collection variants): consume the name; in the
long form of an option with a meta-variable the rest must begin with an
equals sign, which is removed; the rest is handed to ParseValue. -/
def parseArgDefault (pre : Str) (o : ArgOption) (arg : Str) (isShort : Bool) (err : Option Str) :
    Bool × ArgOption × Option Str :=
  match consumeName o arg isShort with
  | none => (false, o, err)
  | some rest =>
    if !isShort && o.hasMetaVar then
      match rest with
      | '=' :: rest2 =>
        match OptData.parseValue pre o.name o.data rest2 err with
        | (ok, d2, e2) => (ok, { o with data := d2 }, e2)
      | _ => (false, o, err)
    else
      match OptData.parseValue pre o.name o.data rest err with
      | (ok, d2, e2) => (ok, { o with data := d2 }, e2)

/-- Mirrors Argue::FlagOption::ParseArg: a consumed name with an empty rest
sets the value to true; the long form also accepts the name preceded by
no-, which sets the value to false; anything else is not a match. -/
def parseArgFlag (o : ArgOption) (df : Bool) (arg : Str) (isShort : Bool) (err : Option Str) :
    Bool × ArgOption × Option Str :=
  match consumeName o arg isShort with
  | some rest =>
    if rest.isEmpty then (true, { o with data := .flagOpt df true }, err)
    else (false, o, err)
  | none =>
    if isShort then (false, o, err)
    else if startsWith arg (chars "no-") then
      if arg.drop 3 = o.name then (true, { o with data := .flagOpt df false }, err)
      else (false, o, err)
    else (false, o, err)

/-- Mirrors Argue::IOption::Parse: dispatch to the variant ParseArg and set
wasParsed on success. -/
def ArgOption.parse (pre : Str) (o : ArgOption) (arg : Str) (isShort : Bool) (err : Option Str) :
    Bool × ArgOption × Option Str :=
  match
    match o.data with
    | .flagOpt df _ => parseArgFlag o df arg isShort err
    | _ => parseArgDefault pre o arg isShort err
  with
  | (ok, o2, e2) => if ok then (true, { o2 with wasParsed := true }, e2) else (false, o2, e2)

/-- A positional argument: Argue::StrArgument or Argue::StrVarArgument with
its value state. -/
inductive PosArg where
  | strArg (metaVar : Str) (hasDefault : Bool) (dflt : Str) (wasParsed : Bool) (value : Str)
  | strVarArg (metaVar : Str) (wasParsed : Bool) (values : List Str)
deriving DecidableEq

/-- Mirrors Argue::IPositionalArgument::Parse for the two variants: the
string argument stores the token, the variadic argument appends it; both
always succeed and set wasParsed. -/
def PosArg.parse : PosArg → Str → Bool × PosArg
  | .strArg mv hd df _ _, arg => (true, .strArg mv hd df true arg)
  | .strVarArg mv _ vs, arg => (true, .strVarArg mv true (vs ++ [arg]))

/-- Mirrors the IsVariadic overrides. -/
def PosArg.isVariadic : PosArg → Bool
  | .strArg _ _ _ _ _ => false
  | .strVarArg _ _ _ => true

/-- Mirrors HasValue for positional arguments: parsed or has a default (the
variadic variant always has the empty-sequence default). -/
def PosArg.hasValue : PosArg → Bool
  | .strArg _ hd _ wp _ => wp || hd
  | .strVarArg _ _ _ => true

/-- Meta-variable accessor for positional arguments. -/
def PosArg.metaVar : PosArg → Str
  | .strArg mv _ _ _ _ => mv
  | .strVarArg mv _ _ => mv

/-- A parser node (Argue::IArgParser): name, owned options, owned positional
arguments, child subcommand parsers and the wasUsed flag. The long and short
option markers and the error slot live at the root in the source and are
shared by the whole tree, so they are passed alongside rather than stored in
every node. -/
inductive ArgParser where
  | mk (name : Str) (options : List ArgOption) (arguments : List PosArg)
      (commands : List ArgParser) (wasUsed : Bool)

/-- Name of a parser node. -/
def ArgParser.getName : ArgParser → Str
  | .mk nm _ _ _ _ => nm

/-- Options of a parser node. -/
def ArgParser.getOptions : ArgParser → List ArgOption
  | .mk _ os _ _ _ => os

/-- Positional arguments of a parser node. -/
def ArgParser.getArguments : ArgParser → List PosArg
  | .mk _ _ as _ _ => as

/-- Child subcommand parsers of a parser node. -/
def ArgParser.getCommands : ArgParser → List ArgParser
  | .mk _ _ _ cs _ => cs

/-- The wasUsed flag of a parser node. -/
def ArgParser.getWasUsed : ArgParser → Bool
  | .mk _ _ _ _ u => u

/-- Outcome of the option scan and of the subcommand scan inside
Argue::IArgParser::Parse: an option or child claimed the token, a hard
error was observed (HasError), or nothing claimed the token. -/
inductive ScanRes where
  | matched
  | errored
  | noMatch
deriving DecidableEq

/-- The option scan of Argue::IArgParser::Parse: each option in declaration
order is tried with the form selected by the matched option marker; a
success stops the scan, an observed error aborts; when the long and the
short marker are textually the same, the opposite form is tried next before
moving to the following option. -/
def scanOpts (pre : Str) (same : Bool) (isShort : Bool) (arg : Str) :
    List ArgOption → Option Str → ScanRes × List ArgOption × Option Str
  | [], err => (.noMatch, [], err)
  | o :: os, err =>
    match ArgOption.parse pre o arg isShort err with
    | (ok1, o1, e1) =>
      if ok1 then (.matched, o1 :: os, e1)
      else if e1.isSome then (.errored, o1 :: os, e1)
      else if same then
        match ArgOption.parse pre o1 arg (!isShort) e1 with
        | (ok2, o2, e2) =>
          if ok2 then (.matched, o2 :: os, e2)
          else if e2.isSome then (.errored, o2 :: os, e2)
          else
            match scanOpts pre same isShort arg os e2 with
            | (r, os2, e3) => (r, o2 :: os2, e3)
      else
        match scanOpts pre same isShort arg os e1 with
        | (r, os2, e3) => (r, o1 :: os2, e3)

/-- The subcommand scan of Argue::IArgParser::Parse: each child is handed
the whole remaining token stack; a child that claims it stops the scan, an
observed error aborts, otherwise the next child is tried. The child parsing
function is passed in as an argument. -/
def tryCmdsF (pc : ArgParser → List Str → Option Str → Bool × ArgParser × Option Str) :
    List ArgParser → List Str → Option Str → ScanRes × List ArgParser × Option Str
  | [], _, err => (.noMatch, [], err)
  | c :: cs, args, err =>
    match pc c args err with
    | (ok, c1, e1) =>
      if ok then (.matched, c1 :: cs, e1)
      else if e1.isSome then (.errored, c1 :: cs, e1)
      else
        match tryCmdsF pc cs args e1 with
        | (r, cs2, e2) => (r, c1 :: cs2, e2)

/-- Message of the first owned option without a value, mirroring the first
validation loop after the token loop of Argue::IArgParser::Parse. -/
def firstMissingOption (pre : Str) : List ArgOption → Option Str
  | [] => none
  | o :: os =>
    if !o.hasValue then some (chars "Missing option '" ++ pre ++ o.name ++ chars "'.")
    else firstMissingOption pre os

/-- Message of the first owned positional argument without a value,
mirroring the second validation loop of Argue::IArgParser::Parse. -/
def firstMissingArgument : List PosArg → Option Str
  | [] => none
  | a :: as =>
    if !a.hasValue then some (chars "Missing argument '" ++ a.metaVar ++ chars "'.")
    else firstMissingArgument as

/-- Fallback positional argument handed to getD; the position index is
checked against the list length before every access, so it is never used. -/
def posD : PosArg := .strArg [] false [] false []

/-- The token loop of Argue::IArgParser::Parse, one parser node, after its
name token was consumed and wasUsed was set. Arguments: the child parsing
function (the recursive call one fuel level down), the long and short
option markers, whether the two markers are textually the same, the fields
of the node, the positional-only flag, the position cursor, the remaining
tokens and the shared error slot. -/
def parseLoopF (pc : ArgParser → List Str → Option Str → Bool × ArgParser × Option Str)
    (pre spre : Str) (same : Bool) (nm : Str)
    (opts : List ArgOption) (pargs : List PosArg) (cmds : List ArgParser)
    (isPos : Bool) (posIdx : Nat) :
    List Str → Option Str → Bool × ArgParser × Option Str
  | [], err =>
    match firstMissingOption pre opts with
    | some msg => (false, .mk nm opts pargs cmds true, some msg)
    | none =>
      match firstMissingArgument pargs with
      | some msg => (false, .mk nm opts pargs cmds true, some msg)
      | none => (err.isNone, .mk nm opts pargs cmds true, err)
  | tok :: rest, err =>
    if isPos then
      if pargs.length ≤ posIdx then
        (false, .mk nm opts pargs cmds true,
          some (chars "Unexpected positional argument '" ++ tok ++ chars "'."))
      else
        match (pargs.getD posIdx posD).parse tok with
        | (ok, a2) =>
          if ok then
            parseLoopF pc pre spre same nm opts (pargs.set posIdx a2) cmds true
              (if a2.isVariadic then posIdx else posIdx + 1) rest err
          else (false, .mk nm opts (pargs.set posIdx a2) cmds true, err)
    else if tok = chars "--" then
      parseLoopF pc pre spre same nm opts pargs cmds true posIdx rest err
    else if startsWith tok pre then
      match scanOpts pre same false (tok.drop pre.length) opts err with
      | (.matched, opts2, e2) =>
        parseLoopF pc pre spre same nm opts2 pargs cmds isPos posIdx rest e2
      | (.errored, opts2, e2) => (false, .mk nm opts2 pargs cmds true, e2)
      | (.noMatch, opts2, _) =>
        (false, .mk nm opts2 pargs cmds true,
          some (chars "Unknown option '" ++ tok ++ chars "'."))
    else if !spre.isEmpty && startsWith tok spre then
      match scanOpts pre same true (tok.drop spre.length) opts err with
      | (.matched, opts2, e2) =>
        parseLoopF pc pre spre same nm opts2 pargs cmds isPos posIdx rest e2
      | (.errored, opts2, e2) => (false, .mk nm opts2 pargs cmds true, e2)
      | (.noMatch, opts2, _) =>
        (false, .mk nm opts2 pargs cmds true,
          some (chars "Unknown option '" ++ tok ++ chars "'."))
    else
      match tryCmdsF pc cmds (tok :: rest) err with
      | (.matched, cmds2, e2) => (true, .mk nm opts pargs cmds2 true, e2)
      | (.errored, cmds2, e2) => (false, .mk nm opts pargs cmds2 true, e2)
      | (.noMatch, cmds2, e2) =>
        if pargs.length ≤ posIdx then
          (false, .mk nm opts pargs cmds2 true,
            some (chars "Unexpected positional argument '" ++ tok ++ chars "'."))
        else
          match (pargs.getD posIdx posD).parse tok with
          | (ok, a2) =>
            if ok then
              parseLoopF pc pre spre same nm opts (pargs.set posIdx a2) cmds2 true
                (if a2.isVariadic then posIdx else posIdx + 1) rest e2
            else (false, .mk nm opts (pargs.set posIdx a2) cmds2 true, e2)

/-- Mirrors Argue::IArgParser::Parse on a token stack: the top token must
equal the node name (otherwise false with no side effect), then the token
loop runs. The fuel bounds the depth of subcommand recursion; one unit is
consumed per entered node, so any fuel of at least the height of the parser
tree gives the behaviour of the source. An empty stack leaves the node
untouched (the source never calls Parse on an empty stack: the root caller
supplies argv and the recursive calls happen inside the non-empty loop). -/
def ArgParser.parse : Nat → Str → Str → ArgParser → List Str → Option Str →
    Bool × ArgParser × Option Str
  | 0, _, _, p, _, err => (false, p, err)
  | fuel + 1, pre, spre, p, args, err =>
    match args with
    | [] => (false, p, err)
    | tok :: _ =>
      match p with
      | .mk nm opts pargs cmds u =>
        if tok ≠ nm then (false, .mk nm opts pargs cmds u, err)
        else
          parseLoopF (fun c as e => ArgParser.parse fuel pre spre c as e) pre spre
            (spre == pre) nm opts pargs cmds false 0 args.tail err

/-- Mirrors Argue::IntOption::GetValue: the parsed value when parsed,
otherwise the default (0 when none was configured, from the member
initializer). Returns none only for the indeterminate value left by an
ignored out-of-range conversion. -/
def ArgOption.intValue (o : ArgOption) : Option Int :=
  match o.data with
  | .intOpt _ df v => if o.wasParsed then v else some df
  | _ => none

/-- Mirrors Argue::ChoiceOption::GetValue: the empty string when there are
no candidates, otherwise the candidate at the parsed index when parsed, or
at the default index. -/
def ArgOption.choiceValue (o : ArgOption) : Str :=
  match o.data with
  | .choiceOpt cs _ di vi =>
    if cs.isEmpty then [] else if o.wasParsed then cs.getD vi [] else cs.getD di []
  | _ => []

/-- Mirrors Argue::ChoiceOption::GetDefaultValue: the empty string when
there are no candidates or no default was configured, otherwise the
candidate at the default index. -/
def ArgOption.choiceDefaultValue (o : ArgOption) : Str :=
  match o.data with
  | .choiceOpt cs hd di _ => if cs.isEmpty || !hd then [] else cs.getD di []
  | _ => []

/-- Mirrors Argue::CollectionOption::GetValue. -/
def ArgOption.collValues (o : ArgOption) : List Str :=
  match o.data with
  | .collOpt _ vs => vs
  | _ => []

/-- Mirrors Argue::StrArgument::GetValue: the parsed value when parsed,
otherwise the default. -/
def PosArg.strValue : PosArg → Str
  | .strArg _ _ df wp v => if wp then v else df
  | .strVarArg _ _ _ => []

/-- An IntOption built by the constructor without a default value. -/
def mkIntOption (nm snm mv : Str) : ArgOption :=
  ⟨nm, snm, mv, false, .intOpt false 0 (some 0)⟩

/-- A ChoiceOption built by the constructor that takes a default choice
index: the index is clamped into the candidate list when the list is
non-empty, exactly as the source constructor does. -/
def mkChoiceOptionD (nm snm mv : Str) (choices : List Str) (defaultChoiceIdx : Nat) : ArgOption :=
  ⟨nm, snm, mv, false,
    .choiceOpt choices true
      (if choices.isEmpty then 0
       else if defaultChoiceIdx < choices.length then defaultChoiceIdx else choices.length - 1)
      0⟩

/-- A CollectionOption built by its constructor. -/
def mkCollOption (nm snm mv : Str) (acceptEmpty : Bool) : ArgOption :=
  ⟨nm, snm, mv, false, .collOpt acceptEmpty []⟩

/-- A StrArgument built by the constructor without a default value. -/
def mkStrArgument (mv : Str) : PosArg := .strArg mv false [] false []

/-- Fallback option handed to getD in theorem statements. -/
def optD : ArgOption := ⟨[], [], [], false, .flagOpt false false⟩

/-- Fallback parser node handed to getD in theorem statements. -/
def parserD : ArgParser := .mk [] [] [] [] false

/-- An optional minus sign followed by a non-empty run of decimal digits:
exactly the token shapes that the integer conversion consumes in full. -/
def isSignedNumeral (l : Str) : Bool :=
  if l.head? = some '-' then !l.tail.isEmpty && l.tail.all Char.isDigit
  else !l.isEmpty && l.all Char.isDigit

/-- The mathematical value of a signed decimal numeral. -/
def numeralValue (l : Str) : Int :=
  if l.head? = some '-' then -(natOfDigits l.tail : Int) else (natOfDigits l : Int)

/-- The per-option form order that the specification describes for the scan
under textually identical long and short option markers: for each option in
declaration order, first the form selected by the matched marker, then the
opposite form. -/
def interleaveForms (isShort : Bool) : List ArgOption → List (ArgOption × Bool)
  | [] => []
  | o :: os => (o, isShort) :: (o, !isShort) :: interleaveForms isShort os

/-- Reference scan that tries one (option, form) pair after the other in
list order: a success or an observed error stops the walk and reports the
index of the pair together with the option state it produced. Written from
the specification wording so that the source scan can be compared with it. -/
def scanFlat (pre arg : Str) : List (ArgOption × Bool) → Option Str →
    ScanRes × Option (Nat × ArgOption) × Option Str
  | [], err => (.noMatch, none, err)
  | (o, f) :: rest, err =>
    match ArgOption.parse pre o arg f err with
    | (ok, o1, e1) =>
      if ok then (.matched, some (0, o1), e1)
      else if e1.isSome then (.errored, some (0, o1), e1)
      else
        match scanFlat pre arg rest e1 with
        | (r, some iu, e2) => (r, some (iu.1 + 1, iu.2), e2)
        | (r, none, e2) => (r, none, e2)

/-- The candidate set of the end-to-end scenario. -/
def opChoices : List Str := [chars "+", chars "-", chars "*", chars "/"]

/-- The root parser of the end-to-end scenario: program prog with required
Integer options a and b and a Choice option op defaulting to the first
candidate, exactly as the shipped calculator example builds it. -/
def progParser : ArgParser := .mk (chars "prog")
  [mkIntOption (chars "a") (chars "a") (chars "A"),
   mkIntOption (chars "b") (chars "b") (chars "B"),
   mkChoiceOptionD (chars "op") (chars "op") (chars "OPERATOR") opChoices 0]
  [] [] false

/-- The child command of the subcommand-dispatch scenario: command sub with
one required String positional X. -/
def subParser : ArgParser := .mk (chars "sub") [] [mkStrArgument (chars "X")] [] false

/-- The root parser of the subcommand-dispatch scenario. -/
def rootParser : ArgParser := .mk (chars "prog") [] [] [subParser] false

/-- A root parser with no options, no subcommands and one required String
positional, used to probe how unclaimed dash tokens are routed. -/
def dashParser : ArgParser := .mk (chars "prog") [] [mkStrArgument (chars "X")] [] false

/-- A root parser owning a single Collection option c (meta-variable V,
empty values rejected). -/
def collParser : ArgParser :=
  .mk (chars "prog") [mkCollOption (chars "c") [] (chars "V") false] [] [] false

theorem posArg_parse_fst (a : PosArg) (t : Str) : (a.parse t).1 = true := by
  cases a <;> rfl

theorem startsWith_append_self (a b : Str) : startsWith (a ++ b) a = true := by
  induction a with
  | nil => simp [startsWith]
  | cons c cs ih => simp [startsWith, ih]

theorem dropWhile_head_false (p : Char → Bool) (l : Str) :
    ∀ c, (l.dropWhile p).head? = some c → p c = false := by
  induction l with
  | nil => intro c h; simp [List.dropWhile] at h
  | cons a t ih =>
    intro c h
    rw [List.dropWhile_cons] at h
    by_cases hp : p a
    · rw [if_pos hp] at h
      exact ih c h
    · rw [if_neg hp] at h
      simp only [List.head?_cons, Option.some.injEq] at h
      rw [← h]
      simpa using hp

theorem lastNotSpace_trimTrailing (l : Str) : lastNotSpace (trimTrailing l) = true := by
  have hh := dropWhile_head_false isSpaceChar l.reverse
  unfold trimTrailing lastNotSpace
  rcases hd : (l.reverse.dropWhile isSpaceChar) with _ | ⟨c, t⟩
  · rfl
  · rw [List.getLast?_reverse, List.head?_cons]
    have hc := hh c (by rw [hd]; rfl)
    simp [hc]

theorem build_ends_clean (b : TextBuilder) :
    (b.build).1.getLast? = some '\n' ∧ lastNotSpace ((b.build).1.dropLast) = true := by
  simp only [TextBuilder.build]
  constructor
  · exact List.getLast?_concat _
  · rw [List.dropLast_concat]
    exact lastNotSpace_trimTrailing _

theorem getD_pred_eq_getLast : ∀ (l : List Str) (d : Str) (h : l ≠ []),
    l.getD (l.length - 1) d = l.getLast h
  | [], _, h => absurd rfl h
  | [_], _, _ => rfl
  | a :: b :: t, d, _ => by
    rw [List.getLast_cons (by simp : (b :: t) ≠ [])]
    have hlen : (a :: b :: t).length - 1 = (b :: t).length - 1 + 1 := by
      simp [List.length_cons]
    rw [hlen, List.getD_cons_succ]
    exact getD_pred_eq_getLast (b :: t) d (by simp)

/-- C1: for the root parser prog with required Integer options a and b and a
Choice option op over the candidates plus, minus, times, divide with default
index 0, parsing prog --a=3 --b=4 succeeds with a = 3, b = 4 and op equal to
the default first candidate; parsing prog --a=3 fails with exactly
Missing option '--b'. ; parsing prog --a=x --b=4 fails with exactly
Expected integer for '--a', got 'x'. -/
theorem c1_end_to_end :
    ((ArgParser.parse 1 (chars "--") (chars "-") progParser
        [chars "prog", chars "--a=3", chars "--b=4"] none).1 = true ∧
      (ArgParser.parse 1 (chars "--") (chars "-") progParser
        [chars "prog", chars "--a=3", chars "--b=4"] none).2.2 = none ∧
      ((ArgParser.parse 1 (chars "--") (chars "-") progParser
        [chars "prog", chars "--a=3", chars "--b=4"] none).2.1.getOptions.getD 0 optD).intValue
        = some 3 ∧
      ((ArgParser.parse 1 (chars "--") (chars "-") progParser
        [chars "prog", chars "--a=3", chars "--b=4"] none).2.1.getOptions.getD 1 optD).intValue
        = some 4 ∧
      ((ArgParser.parse 1 (chars "--") (chars "-") progParser
        [chars "prog", chars "--a=3", chars "--b=4"] none).2.1.getOptions.getD 2 optD).choiceValue
        = chars "+") ∧
    ((ArgParser.parse 1 (chars "--") (chars "-") progParser
        [chars "prog", chars "--a=3"] none).1 = false ∧
      (ArgParser.parse 1 (chars "--") (chars "-") progParser
        [chars "prog", chars "--a=3"] none).2.2 = some (chars "Missing option '--b'.")) ∧
    ((ArgParser.parse 1 (chars "--") (chars "-") progParser
        [chars "prog", chars "--a=x", chars "--b=4"] none).1 = false ∧
      (ArgParser.parse 1 (chars "--") (chars "-") progParser
        [chars "prog", chars "--a=x", chars "--b=4"] none).2.2
        = some (chars "Expected integer for '--a', got 'x'.")) := by
  decide

/-- C2 counterexample: on the subcommand-dispatch scenario the root node's
wasUsed flag is true after the parse, not false as the claim states: the
root sets it as soon as its own name token prog matches, before any
delegation to the child. -/
theorem c2_counterexample :
    (ArgParser.parse 2 (chars "--") (chars "-") rootParser
      [chars "prog", chars "sub", chars "hello"] none).2.1.getWasUsed = true := by
  decide

/-- C2 amended: tokens prog sub hello match the child node sub, set its
positional X to hello and mark the child used, and the root node's own
wasUsed flag is true as well (it is set when the root matches its own name;
the root still consumed no positionals, owning none). -/
theorem c2_subcommand_dispatch :
    (ArgParser.parse 2 (chars "--") (chars "-") rootParser
      [chars "prog", chars "sub", chars "hello"] none).1 = true ∧
    (ArgParser.parse 2 (chars "--") (chars "-") rootParser
      [chars "prog", chars "sub", chars "hello"] none).2.2 = none ∧
    (((ArgParser.parse 2 (chars "--") (chars "-") rootParser
      [chars "prog", chars "sub", chars "hello"] none).2.1.getCommands.getD 0
        parserD).getArguments.getD 0 posD).strValue = chars "hello" ∧
    ((ArgParser.parse 2 (chars "--") (chars "-") rootParser
      [chars "prog", chars "sub", chars "hello"] none).2.1.getCommands.getD 0
        parserD).getWasUsed = true ∧
    (ArgParser.parse 2 (chars "--") (chars "-") rootParser
      [chars "prog", chars "sub", chars "hello"] none).2.1.getWasUsed = true := by
  decide

/-- C3: Build returns the accumulated text plus the pending current line
with trailing whitespace trimmed and one line break appended, but it does
not reset the builder: the state after Build is identical to the state
before it, so an immediately following Build returns the same non-trivial
string again instead of the single line break that the documented reset
would produce. Shown at the concrete input PutText hi followed by two
Build calls. -/
theorem c3_build_does_not_reset :
    ((tbInit.putText (chars "hi")).build).1 = chars "hi\n" ∧
    ((tbInit.putText (chars "hi")).build).2 = tbInit.putText (chars "hi") ∧
    ((((tbInit.putText (chars "hi")).build).2).build).1 = chars "hi\n" ∧
    chars "hi\n" ≠ chars "\n" := by
  exact ⟨rfl, rfl, rfl, by decide⟩

/-- C4 counterexample: the call sequence Indent then PutText hi produces the
built string two-spaces hi line-break, whose first character is the space
character, so the built string can start with whitespace, against the claim
that it never does. -/
theorem c4_counterexample :
    ((runOps tbInit [TBOp.indentOp, TBOp.putTextOp (chars "hi")]).build).1 = chars "  hi\n" ∧
    ((runOps tbInit [TBOp.indentOp, TBOp.putTextOp (chars "hi")]).build).1.head? = some ' ' ∧
    isSpaceChar ' ' = true := by
  decide

/-- C4 amended: for every sequence of PutText, NewLine, Spacer, Indent and
DeIndent calls on a TextBuilder with any configuration, the string produced
by Build ends with exactly one line break preceded by no other trailing
whitespace; it can, however, start with whitespace (for example indentation
emitted at the start of the first line). -/
theorem c4_build_trailing_invariant (ind : Str) (onWrap : Bool) (width : Nat) (ops : List TBOp) :
    ((runOps (mkTextBuilder ind onWrap width) ops).build).1.getLast? = some '\n' ∧
    lastNotSpace (((runOps (mkTextBuilder ind onWrap width) ops).build).1.dropLast) = true :=
  build_ends_clean _

/-- C5 counterexample: under the default markers a leading-dash token that
no option claims is rejected with Unknown option, not routed as positional
input: parsing prog -x on a parser with no options, no subcommands and one
declared String positional fails with Unknown option '-x'. and leaves the
positional unfilled. -/
theorem c5_counterexample :
    (ArgParser.parse 1 (chars "--") (chars "-") dashParser
      [chars "prog", chars "-x"] none).1 = false ∧
    (ArgParser.parse 1 (chars "--") (chars "-") dashParser
      [chars "prog", chars "-x"] none).2.2 = some (chars "Unknown option '-x'.") ∧
    ((ArgParser.parse 1 (chars "--") (chars "-") dashParser
      [chars "prog", chars "-x"] none).2.1.getArguments.getD 0 posD).hasValue = false := by
  decide

/-- C7: for a Choice option op with candidates plus, minus, times, divide
under the default long marker, parsing any value different from every
candidate fails and sets the shared error message to exactly
Expected one of (the comma-joined candidate set in braces) for '--op',
got quoted-v dot, echoing the supplied bad value. -/
theorem c7_choice_error_message (v : Str) (hd : Bool) (di vi : Nat) (err : Option Str)
    (h1 : v ≠ chars "+") (h2 : v ≠ chars "-") (h3 : v ≠ chars "*") (h4 : v ≠ chars "/") :
    OptData.parseValue (chars "--") (chars "op") (.choiceOpt opChoices hd di vi) v err
      = (false, .choiceOpt opChoices hd di vi,
          some (chars "Expected one of \x7b+,-,*,/\x7d for '--op', got '" ++ v ++ chars "'.")) := by
  have hfind : findChoice v opChoices 0 = none := by
    simp only [opChoices, findChoice]
    rw [if_neg (fun hh => h1 hh.symm), if_neg (fun hh => h2 hh.symm),
      if_neg (fun hh => h3 hh.symm), if_neg (fun hh => h4 hh.symm)]
  simp only [OptData.parseValue, hfind]
  rfl

theorem c7_choice_error_message_witness :
    OptData.parseValue (chars "--") (chars "op") (.choiceOpt opChoices true 0 0) (chars "x") none
      = (false, .choiceOpt opChoices true 0 0,
          some (chars "Expected one of \x7b+,-,*,/\x7d for '--op', got 'x'.")) :=
  c7_choice_error_message (chars "x") true 0 0 none
    (by decide) (by decide) (by decide) (by decide)

/-- C10: a ChoiceOption constructed with a non-empty candidate set and a
default index at or past the number of candidates clamps the default to the
last candidate; and with an empty candidate set both GetValue and
GetDefaultValue return the empty string whatever the parse state. -/
theorem c10_choice_defaults :
    (∀ (nm snm mv : Str) (choices : List Str) (idx : Nat) (h1 : choices ≠ [])
        (h2 : choices.length ≤ idx),
      (mkChoiceOptionD nm snm mv choices idx).choiceDefaultValue = choices.getLast h1) ∧
    (∀ (nm snm mv : Str) (hd : Bool) (di vi : Nat) (w : Bool),
      ArgOption.choiceValue ⟨nm, snm, mv, w, .choiceOpt [] hd di vi⟩ = [] ∧
      ArgOption.choiceDefaultValue ⟨nm, snm, mv, w, .choiceOpt [] hd di vi⟩ = []) := by
  constructor
  · intro nm snm mv choices idx h1 h2
    have hie : choices.isEmpty = false := by
      cases choices with
      | nil => exact absurd rfl h1
      | cons a t => rfl
    simp only [mkChoiceOptionD, ArgOption.choiceDefaultValue, hie,
      Bool.not_true, Bool.false_or, Bool.or_false, if_false]
    rw [if_neg (by omega : ¬ idx < choices.length)]
    exact getD_pred_eq_getLast choices [] h1
  · intro nm snm mv hd di vi w
    constructor
    · simp [ArgOption.choiceValue]
    · simp [ArgOption.choiceDefaultValue]

theorem c10_choice_defaults_witness :
    (mkChoiceOptionD (chars "op") [] (chars "T") [chars "+", chars "-"] 5).choiceDefaultValue
      = chars "-" := by
  rw [c10_choice_defaults.1 (chars "op") [] (chars "T") [chars "+", chars "-"] 5
    (by decide) (by decide)]
  rfl

theorem fromChars_numeral (D : Str) (hD : isSignedNumeral D = true) :
    fromChars D = ⟨D.length,
      if INT64_MIN ≤ numeralValue D ∧ numeralValue D ≤ INT64_MAX
      then some (numeralValue D) else none⟩ := by
  rcases D with _ | ⟨c, r⟩
  · simp [isSignedNumeral] at hD
  · by_cases hc : c = '-'
    · subst hc
      simp [isSignedNumeral, List.all_eq_true] at hD
      obtain ⟨hne, hdig⟩ := hD
      have htw : r.takeWhile Char.isDigit = r := List.takeWhile_eq_self_iff.mpr hdig
      have hie : r.isEmpty = false := by
        cases r with
        | nil => exact absurd rfl hne
        | cons a t => rfl
      simp [fromChars, numeralValue, htw, hie, List.length_cons, Nat.add_comm]
    · have hdig : ∀ a ∈ c :: r, Char.isDigit a = true := by
        simpa [isSignedNumeral, hc, List.all_eq_true] using hD
      have htw : (c :: r).takeWhile Char.isDigit = c :: r := List.takeWhile_eq_self_iff.mpr hdig
      simp [fromChars, numeralValue, htw, hc, List.length_cons]

/-- C9: for a long-form token name equals D aimed at an Integer option,
where D is a well-formed signed decimal numeral whose value lies outside
the signed 64-bit range, Parse returns true, sets no error and marks the
option as parsed: the conversion consumes the whole remainder, so the
pointer check passes, its out-of-range error code is ignored, and the
stored value is the indeterminate content of the never-written local
(none in this embedding). -/
theorem c9_int_overflow (pre nm snm mv : Str) (hd : Bool) (df : Int) (v0 : Option Int) (w : Bool)
    (D : Str) (hmv : mv ≠ []) (hD : isSignedNumeral D = true)
    (hrange : numeralValue D < INT64_MIN ∨ INT64_MAX < numeralValue D) :
    ArgOption.parse pre ⟨nm, snm, mv, w, .intOpt hd df v0⟩ (nm ++ '=' :: D) false none
      = (true, ⟨nm, snm, mv, true, .intOpt hd df none⟩, none) := by
  have hcn : consumeName ⟨nm, snm, mv, w, .intOpt hd df v0⟩ (nm ++ '=' :: D) false
      = some ('=' :: D) := by
    simp [consumeName, startsWith_append_self, List.drop_left]
  have hmeta : ArgOption.hasMetaVar ⟨nm, snm, mv, w, .intOpt hd df v0⟩ = true := by
    simp [ArgOption.hasMetaVar, List.isEmpty_iff, hmv]
  have hstored : (fromChars D).stored = none := by
    rw [fromChars_numeral D hD]
    exact if_neg (by
      rintro ⟨ha, hb⟩
      rcases hrange with h | h
      · exact absurd ha (not_le.mpr h)
      · exact absurd hb (not_le.mpr h))
  have hcons : (fromChars D).consumed = D.length := by rw [fromChars_numeral D hD]
  have hpv : OptData.parseValue pre nm (.intOpt hd df v0) D none
      = (true, .intOpt hd df none, none) := by
    simp only [OptData.parseValue, hcons, hstored]
    simp
  have hpad : parseArgDefault pre ⟨nm, snm, mv, w, .intOpt hd df v0⟩ (nm ++ '=' :: D) false none
      = (true, ⟨nm, snm, mv, w, .intOpt hd df none⟩, none) := by
    simp only [parseArgDefault, hcn, hmeta, Bool.not_false, Bool.true_and, hpv]
    simp
  simp only [ArgOption.parse, hpad]
  simp

/-- C5 amended: a token that matches neither the long marker nor the
configured short marker and is not the positional separator, on a node
without subcommands, is routed as positional input, and an error arises only
when the declared positional count is exceeded; a token that does match a
configured marker but is claimed by no option is instead rejected with the
Unknown option error (see the counterexample), so with the default markers
this routing applies only to tokens without a leading dash. -/
theorem c5_unclaimed_routed_positional
    (pc : ArgParser → List Str → Option Str → Bool × ArgParser × Option Str)
    (pre spre : Str) (same : Bool) (nm : Str)
    (opts : List ArgOption) (pargs : List PosArg) (posIdx : Nat)
    (tok : Str) (rest : List Str) (err : Option Str)
    (hpre : startsWith tok pre = false)
    (hspre : spre.isEmpty = true ∨ startsWith tok spre = false)
    (hsep : tok ≠ chars "--") :
    parseLoopF pc pre spre same nm opts pargs [] false posIdx (tok :: rest) err
      = (if pargs.length ≤ posIdx then
          (false, .mk nm opts pargs [] true,
            some (chars "Unexpected positional argument '" ++ tok ++ chars "'."))
        else
          parseLoopF pc pre spre same nm opts
            (pargs.set posIdx ((pargs.getD posIdx posD).parse tok).2) [] true
            (if ((pargs.getD posIdx posD).parse tok).2.isVariadic then posIdx else posIdx + 1)
            rest err) := by
  have htry : tryCmdsF pc [] (tok :: rest) err = (.noMatch, [], err) := rfl
  have hs : (!spre.isEmpty && startsWith tok spre) = false := by
    rcases hspre with h | h
    · simp [h]
    · simp [h]
  simp only [parseLoopF, if_neg hsep, hpre, hs, htry, Bool.false_eq_true, if_false]
  rcases hp : (pargs.getD posIdx posD).parse tok with ⟨ok, a2⟩
  have hok : ok = true := by
    have := posArg_parse_fst (pargs.getD posIdx posD) tok
    rw [hp] at this
    exact this
  subst hok
  simp

theorem c5_unclaimed_routed_positional_witness :
    startsWith (chars "hello") (chars "--") = false ∧
    parseLoopF (fun c as e => (false, c, e)) (chars "--") (chars "-") false (chars "prog")
        [] [mkStrArgument (chars "X")] [] false 0 [chars "hello"] none
      = (if [mkStrArgument (chars "X")].length ≤ 0 then
          (false, .mk (chars "prog") [] [mkStrArgument (chars "X")] [] true,
            some (chars "Unexpected positional argument '" ++ chars "hello" ++ chars "'."))
        else
          parseLoopF (fun c as e => (false, c, e)) (chars "--") (chars "-") false (chars "prog")
            []
            ([mkStrArgument (chars "X")].set 0
              (([mkStrArgument (chars "X")].getD 0 posD).parse (chars "hello")).2) [] true
            (if (([mkStrArgument (chars "X")].getD 0 posD).parse (chars "hello")).2.isVariadic
             then 0 else 0 + 1)
            [] none) :=
  ⟨by decide,
    c5_unclaimed_routed_positional (fun c as e => (false, c, e)) (chars "--") (chars "-") false
      (chars "prog") [] [mkStrArgument (chars "X")] 0 (chars "hello") [] none
      (by decide) (Or.inr (by decide)) (by decide)⟩

theorem c9_int_overflow_witness :
    isSignedNumeral (chars "9223372036854775808") = true ∧
    INT64_MAX < numeralValue (chars "9223372036854775808") ∧
    ArgOption.parse (chars "--") ⟨chars "n", [], chars "N", false, .intOpt false 0 (some 0)⟩
        (chars "n" ++ '=' :: chars "9223372036854775808") false none
      = (true, ⟨chars "n", [], chars "N", true, .intOpt false 0 none⟩, none) :=
  ⟨by decide, by decide,
    c9_int_overflow (chars "--") (chars "n") [] (chars "N") false 0 (some 0) false
      (chars "9223372036854775808") (by decide) (by decide) (Or.inr (by decide))⟩

theorem parseValue_not_ok (pre nm : Str) (d : OptData) (val : Str) (err : Option Str) :
    (OptData.parseValue pre nm d val err).1 = false →
    (OptData.parseValue pre nm d val err).2.1 = d := by
  cases d <;> simp only [OptData.parseValue] <;> (try split) <;> simp

theorem parseArgDefault_not_ok (pre : Str) (o : ArgOption) (arg : Str) (f : Bool)
    (err : Option Str) :
    (parseArgDefault pre o arg f err).1 = false →
    (parseArgDefault pre o arg f err).2.1 = o := by
  have hpv := parseValue_not_ok pre o.name o.data
  unfold parseArgDefault
  split
  · simp
  · split
    · split
      · rename_i rest2 heq2
        rcases hq : OptData.parseValue pre o.name o.data rest2 err with ⟨ok, d2, e2⟩
        simp only [hq]
        intro h
        have h2 := hpv rest2 err
        rw [hq] at h2
        have hd2 : d2 = o.data := h2 h
        simp [hd2]
      · simp
    · rename_i rest heq hmeta
      rcases hq : OptData.parseValue pre o.name o.data rest err with ⟨ok, d2, e2⟩
      simp only [hq]
      intro h
      have h2 := hpv rest err
      rw [hq] at h2
      have hd2 : d2 = o.data := h2 h
      simp [hd2]

theorem parseArgFlag_not_ok (o : ArgOption) (df : Bool) (arg : Str) (f : Bool)
    (err : Option Str) :
    (parseArgFlag o df arg f err).1 = false →
    (parseArgFlag o df arg f err).2.1 = o := by
  unfold parseArgFlag
  split
  · split <;> simp
  · split
    · simp
    · split
      · split <;> simp
      · simp

theorem optParse_not_ok (pre : Str) (o : ArgOption) (arg : Str) (f : Bool) (err : Option Str) :
    (ArgOption.parse pre o arg f err).1 = false →
    (ArgOption.parse pre o arg f err).2.1 = o := by
  unfold ArgOption.parse
  cases ho : o.data <;> simp only [ho]
  case flagOpt df v =>
    rcases hq : parseArgFlag o df arg f err with ⟨ok, o2, e2⟩
    have h2 := parseArgFlag_not_ok o df arg f err
    rw [hq] at h2
    simp only [hq]
    cases ok
    · exact fun _ => h2 rfl
    · intro h
      simpa using h
  all_goals
    rcases hq : parseArgDefault pre o arg f err with ⟨ok, o2, e2⟩
  all_goals
    have h2 := parseArgDefault_not_ok pre o arg f err
    rw [hq] at h2
    simp only [hq]
    cases ok
  all_goals first
    | exact fun _ => h2 rfl
    | (intro h; simpa using h)

/-- C6: when the long and short option markers are textually identical, the
source option scan is exactly the walk over the flattened per-option form
list that the specification describes: for each option in declaration order
first the form selected by the matched marker, then the opposite form, and
the first (option, form) pair to succeed wins (index division by two recovers
the option position, so a hit at flattened index i updates option i / 2);
consequently (second conjunct) an option without a short name still matches
via its long name when the scan enters through the short-marker form. -/
theorem c6_same_marker_scan :
    (∀ (pre arg : Str) (f : Bool) (opts : List ArgOption) (err : Option Str),
      scanOpts pre true f arg opts err =
        match scanFlat pre arg (interleaveForms f opts) err with
        | (r, some iu, e) => (r, opts.set (iu.1 / 2) iu.2, e)
        | (r, none, e) => (r, opts, e)) ∧
    scanOpts (chars "-") true true (chars "verbose")
        [⟨chars "verbose", [], [], false, .flagOpt false false⟩] none
      = (.matched, [⟨chars "verbose", [], [], true, .flagOpt false true⟩], none) := by
  constructor
  · intro pre arg f opts err
    induction opts generalizing err with
    | nil => rfl
    | cons o os ih =>
      simp only [scanOpts, interleaveForms, scanFlat]
      rcases h1 : ArgOption.parse pre o arg f err with ⟨ok1, o1, e1⟩
      simp only [h1]
      cases ok1
      case left.cons.mk.mk.true =>
        simp [List.set_cons_zero]
      case left.cons.mk.mk.false =>
        have ho1 : o1 = o := by
          have hh := optParse_not_ok pre o arg f err
          rw [h1] at hh
          exact hh rfl
        subst ho1
        cases e1 with
        | some m =>
          simp [List.set_cons_zero]
        | none =>
          rcases h2 : ArgOption.parse pre o1 arg (!f) none with ⟨ok2, o2, e2⟩
          simp only [h2]
          cases ok2
          case false =>
            have ho2 : o2 = o1 := by
              have hh := optParse_not_ok pre o1 arg (!f) none
              rw [h2] at hh
              exact hh rfl
            subst ho2
            cases e2 with
            | some m2 =>
              simp [List.set_cons_zero]
            | none =>
              have ihe := ih none
              rcases h3 : scanOpts pre true f arg os none with ⟨r3, os3, e3⟩
              rcases h4 : scanFlat pre arg (interleaveForms f os) none with ⟨r4, iu4, e4⟩
              rw [h3, h4] at ihe
              simp only [h3, h4]
              cases iu4 with
              | none =>
                simp only [Prod.mk.injEq] at ihe
                obtain ⟨hr, hos, he⟩ := ihe
                subst hr; subst hos; subst he
                simp
              | some iu =>
                simp only [Prod.mk.injEq] at ihe
                obtain ⟨hr, hos, he⟩ := ihe
                subst hr; subst hos; subst he
                have hdiv : (iu.1 + 1 + 1) / 2 = iu.1 / 2 + 1 := by
                  omega
                simp [hdiv, List.set_cons_succ]
          case true =>
            simp [List.set_cons_zero]
  · decide

theorem collLoop (pc : ArgParser → List Str → Option Str → Bool × ArgParser × Option Str)
    (spre : Str) (same : Bool) (nm : Str) (pidx : Nat) (err : Option Str) :
    ∀ (vs acc : List Str) (w : Bool), (∀ v ∈ vs, v ≠ []) →
    parseLoopF pc (chars "--") spre same nm
        [⟨chars "c", [], chars "V", w, .collOpt false acc⟩] [] [] false pidx
        (vs.map (fun v => chars "--c=" ++ v)) err
      = (err.isNone,
          .mk nm [⟨chars "c", [], chars "V", w || !vs.isEmpty, .collOpt false (acc ++ vs)⟩]
            [] [] true, err)
  | [], acc, w, _ => by
    simp [parseLoopF, firstMissingOption, firstMissingArgument, ArgOption.hasValue,
      OptData.hasDefaultValue, Bool.or_true, Bool.or_false]
  | v :: vs, acc, w, hne => by
    obtain ⟨c0, cs0, rfl⟩ := List.exists_cons_of_ne_nil (hne v (by simp))
    rw [List.map_cons]
    have hstep : parseLoopF pc (chars "--") spre same nm
        [⟨chars "c", [], chars "V", w, .collOpt false acc⟩] [] [] false pidx
        ((chars "--c=" ++ (c0 :: cs0)) :: vs.map (fun v => chars "--c=" ++ v)) err
      = parseLoopF pc (chars "--") spre same nm
        [⟨chars "c", [], chars "V", true, .collOpt false (acc ++ [c0 :: cs0])⟩] [] [] false pidx
        (vs.map (fun v => chars "--c=" ++ v)) err := rfl
    rw [hstep, collLoop pc spre same nm pidx err vs (acc ++ [c0 :: cs0]) true
      (fun x hx => hne x (by simp [hx]))]
    simp [List.append_assoc]

/-- C8: for every list of non-empty values, parsing the token stream made of
the program name followed by one long-form occurrence of the Collection
option c per value succeeds, and GetValue returns exactly that list of
values in left-to-right command-line order (so N occurrences give a sequence
of length exactly N, never deduplicated or merged); this includes N = 0,
where the parse still succeeds through the always-present empty default. -/
theorem c8_collection_order (vs : List Str) (hne : ∀ v ∈ vs, v ≠ []) :
    (ArgParser.parse 1 (chars "--") (chars "-") collParser
        (chars "prog" :: vs.map (fun v => chars "--c=" ++ v)) none).1 = true ∧
    ((ArgParser.parse 1 (chars "--") (chars "-") collParser
        (chars "prog" :: vs.map (fun v => chars "--c=" ++ v)) none).2.1.getOptions.getD 0
      optD).collValues = vs ∧
    (ArgParser.parse 1 (chars "--") (chars "-") collParser
        (chars "prog" :: vs.map (fun v => chars "--c=" ++ v)) none).2.2 = none := by
  have hentry : ArgParser.parse 1 (chars "--") (chars "-") collParser
      (chars "prog" :: vs.map (fun v => chars "--c=" ++ v)) none
    = parseLoopF (fun c as e => ArgParser.parse 0 (chars "--") (chars "-") c as e)
        (chars "--") (chars "-") ((chars "-" : Str) == (chars "--" : Str)) (chars "prog")
        [⟨chars "c", [], chars "V", false, .collOpt false []⟩] [] [] false 0
        (vs.map (fun v => chars "--c=" ++ v)) none := rfl
  rw [hentry, collLoop (fun c as e => ArgParser.parse 0 (chars "--") (chars "-") c as e)
    (chars "-") ((chars "-" : Str) == (chars "--" : Str)) (chars "prog") 0 none vs [] false hne]
  refine ⟨rfl, ?_, rfl⟩
  simp [ArgParser.getOptions, ArgOption.collValues]

theorem c8_collection_order_witness :
    (ArgParser.parse 1 (chars "--") (chars "-") collParser
        (chars "prog" :: [chars "x", chars "yz"].map (fun v => chars "--c=" ++ v)) none).1
      = true ∧
    ((ArgParser.parse 1 (chars "--") (chars "-") collParser
        (chars "prog" :: [chars "x", chars "yz"].map (fun v => chars "--c=" ++ v))
        none).2.1.getOptions.getD 0 optD).collValues = [chars "x", chars "yz"] ∧
    (ArgParser.parse 1 (chars "--") (chars "-") collParser
        (chars "prog" :: [chars "x", chars "yz"].map (fun v => chars "--c=" ++ v)) none).2.2
      = none :=
  c8_collection_order [chars "x", chars "yz"] (by decide)

end Argue
